import Mathlib

/-!
Verification development for the option-pricing core of the
black_scholes_web repository (src/option_pricing.py, with call sites in
src/black_scholes_web_app.py).

The Python floating-point arithmetic is modelled over the real numbers.
Python exceptions are modelled with the Except monad: a function that can
raise returns Except PyErr, and a raised exception is Except.error.
Functions that cannot raise on their stated domain return plain reals.
All functions here are pure, so determinism of every routine (the same
inputs always give the same result) is immediate from the embedding.
-/

namespace BSWeb

/-- Kinds of Python exceptions that the module under study can raise:
ValueError (raised explicitly by black_scholes_price when the option type
is neither call nor put) and NameError (raised when an undefined name such
as sns is referenced). -/
inductive PyErr where
  | valueError : PyErr
  | nameError : String → PyErr
  deriving DecidableEq, Repr

/-- Opaque model of a matplotlib figure object, the nominal return value of
generate_heatmap. -/
inductive Fig where
  | mk : Fig
  deriving DecidableEq, Repr

/-- Model of scipy.stats.norm.cdf: the standard normal cumulative
distribution function, Phi x = (integral of exp (-t^2/2) over t <= x)
divided by sqrt (2 pi). -/
noncomputable def normCDF (x : ℝ) : ℝ :=
  (∫ t in Set.Iic x, Real.exp (-(1 / 2) * t ^ 2)) / Real.sqrt (2 * Real.pi)

/-- Embedding of black_scholes_price (src/option_pricing.py lines 5-17).
Computes d1 and d2, then returns the call or put Black-Scholes value, or
raises ValueError for any other option type. -/
noncomputable def black_scholes_price (S K T r sigma : ℝ) (option_type : String) :
    Except PyErr ℝ :=
  let d1 := (Real.log (S / K) + (r + 0.5 * sigma ^ 2) * T) / (sigma * Real.sqrt T)
  let d2 := d1 - sigma * Real.sqrt T
  if option_type = "call" then
    Except.ok (S * normCDF d1 - K * Real.exp (-r * T) * normCDF d2)
  else if option_type = "put" then
    Except.ok (K * Real.exp (-r * T) * normCDF (-d2) - S * normCDF (-d1))
  else
    Except.error PyErr.valueError

/-- Embedding of the terminal-price loop of binomial_tree_price
(src/option_pricing.py lines 26-29): the result has length n + 1, entry 0
is x, and entry i is entry (i-1) times u divided by d. -/
noncomputable def iterMulList (u d : ℝ) : ℝ → ℕ → List ℝ
  | x, 0 => [x]
  | x, n + 1 => x :: iterMulList u d (x * u / d) n

/-- Embedding of one backward-induction pass of binomial_tree_price
(src/option_pricing.py line 34), the numpy vectorised assignment
values[:-1] = disc * (q * values[1:] + (1 - q) * values[:-1]).
The slice assignment keeps the array length fixed: every entry except the
last is replaced simultaneously, and the last entry is left unchanged. -/
noncomputable def bstep (disc q : ℝ) : List ℝ → List ℝ
  | [] => []
  | [x] => [x]
  | x :: y :: rest => disc * (q * y + (1 - q) * x) :: bstep disc q (y :: rest)

/-- Embedding of binomial_tree_price (src/option_pricing.py lines 19-36).
Note line 31: the terminal payoff is (prices - K) if the option type is
"call" and (K - prices) otherwise; no option-type validation is performed
and no exception can be raised, so the result is a plain real. -/
noncomputable def binomial_tree_price (S K T r sigma : ℝ) (steps : ℕ)
    (option_type : String) : ℝ :=
  let dt := T / (steps : ℝ)
  let u := Real.exp (sigma * Real.sqrt dt)
  let d := 1 / u
  let q := (Real.exp (r * dt) - d) / (u - d)
  let prices := iterMulList u d (S * d ^ steps) steps
  let values := prices.map fun p => max 0 (if option_type = "call" then p - K else K - p)
  ((bstep (Real.exp (-r * dt)) q)^[steps] values).headD 0

/-- The two pricing functions the application passes to generate_heatmap
(src/black_scholes_web_app.py lines 43-46). -/
inductive Model where
  | blackScholes : Model
  | binomialTree : Model
  deriving DecidableEq, Repr

/-- Python attribute __name__ of each pricing function, used by
generate_heatmap for dispatch (src/option_pricing.py line 45). -/
def modelName : Model → String
  | Model.blackScholes => "black_scholes_price"
  | Model.binomialTree => "binomial_tree_price"

/-- One cell computation of generate_heatmap (src/option_pricing.py lines
45-48): dispatch on the __name__ of the model function; forward the steps
argument only to binomial_tree_price. -/
noncomputable def applyModel (m : Model) (S K T r sigma : ℝ) (steps : ℕ)
    (option_type : String) : Except PyErr ℝ :=
  if modelName m = "binomial_tree_price" then
    Except.ok (binomial_tree_price S K T r sigma steps option_type)
  else
    black_scholes_price S K T r sigma option_type

/-- Sequencing of fallible computations in order: the first error aborts
the whole list, mirroring exception propagation out of a Python loop. -/
def mapExcept (f : α → Except PyErr β) : List α → Except PyErr (List β)
  | [] => Except.ok []
  | x :: xs => do
    let y ← f x
    let ys ← mapExcept f xs
    Except.ok (y :: ys)

/-- Embedding of the price-matrix filling loops of generate_heatmap
(src/option_pricing.py lines 41-48): outer loop over vol_range (rows),
inner loop over S_range (columns); cell [i][j] is the dispatched pricer at
spot S_range[j] and volatility vol_range[i], with K, T, r, steps and the
option type held fixed. An exception in a cell propagates immediately. -/
noncomputable def heatmap_prices (S_range vol_range : List ℝ) (K T r : ℝ)
    (m : Model) (steps : ℕ) (option_type : String) :
    Except PyErr (List (List ℝ)) :=
  mapExcept
    (fun sigma => mapExcept (fun S => applyModel m S K T r sigma steps option_type) S_range)
    vol_range

/-- Embedding of generate_heatmap (src/option_pricing.py lines 39-68).
After the price matrix is filled, line 51 references the name sns, which
is never imported or defined in the module (only numpy, scipy.stats.norm
and matplotlib.pyplot are imported), so a NameError is raised and the
function can never reach its return statement. The model_params argument
(a Python dict, modelled as an association list) is accepted but never
read by the body; the step count used for the lattice model is the
separate steps argument, whose Python default is 50. -/
noncomputable def generate_heatmap (S_range vol_range : List ℝ) (K T r : ℝ)
    (m : Model) (model_params : List (String × ℕ)) (steps : ℕ)
    (option_type : String) : Except PyErr Fig :=
  match heatmap_prices S_range vol_range K T r m steps option_type with
  | Except.error e => Except.error e
  | Except.ok _ => Except.error (PyErr.nameError "sns")

/-- Default value of the steps argument of generate_heatmap
(src/option_pricing.py line 39); the application call sites
(src/black_scholes_web_app.py lines 73 and 78) omit the argument, so this
default is always the one in effect there. -/
def default_steps : ℕ := 50

/-- Spec-side step of the backward induction, following the words of the
specification: a layer of size m collapses to size m - 1, each entry i
being replaced by disc * (q * value[i+1] + (1 - q) * value[i]). It agrees
with bstep except that the trailing unchanged entry is dropped. -/
noncomputable def specStep (disc q : ℝ) : List ℝ → List ℝ
  | [] => []
  | [_] => []
  | x :: y :: rest => disc * (q * y + (1 - q) * x) :: specStep disc q (y :: rest)

/-- Spec-side two-phase binomial algorithm, following the words of the
specification: terminal spot prices in closed form S * d^N * (u/d)^i with
their payoffs, then N shrinking backward-induction steps, returning the
single remaining value. -/
noncomputable def binomialSpec (S K T r sigma : ℝ) (N : ℕ) (option_type : String) : ℝ :=
  let dt := T / (N : ℝ)
  let u := Real.exp (sigma * Real.sqrt dt)
  let d := 1 / u
  let q := (Real.exp (r * dt) - d) / (u - d)
  let payoffs := (List.range (N + 1)).map fun i =>
    max 0 (if option_type = "call" then S * d ^ N * (u / d) ^ i - K
           else K - S * d ^ N * (u / d) ^ i)
  ((specStep (Real.exp (-r * dt)) q)^[N] payoffs).headD 0

/-- The scalar value black_scholes_price wraps in Except.ok when the
option type is valid: the call branch for "call", the put branch
otherwise. -/
noncomputable def bs_value (S K T r sigma : ℝ) (option_type : String) : ℝ :=
  let d1 := (Real.log (S / K) + (r + 0.5 * sigma ^ 2) * T) / (sigma * Real.sqrt T)
  let d2 := d1 - sigma * Real.sqrt T
  if option_type = "call" then
    S * normCDF d1 - K * Real.exp (-r * T) * normCDF d2
  else
    K * Real.exp (-r * T) * normCDF (-d2) - S * normCDF (-d1)

/-- The scalar value a heatmap cell receives for a given model when the
pricer call succeeds. -/
noncomputable def pricerValue (m : Model) (S K T r sigma : ℝ) (steps : ℕ)
    (option_type : String) : ℝ :=
  match m with
  | Model.blackScholes => bs_value S K T r sigma option_type
  | Model.binomialTree => binomial_tree_price S K T r sigma steps option_type

/-! ## Helper lemmas -/

theorem gauss_integrable : MeasureTheory.Integrable (fun t : ℝ => Real.exp (-(1 / 2) * t ^ 2)) := by
  have h := integrable_exp_neg_mul_sq (show (0 : ℝ) < 1 / 2 by norm_num)
  exact h

theorem normCDF_add_neg (x : ℝ) : normCDF x + normCDF (-x) = 1 := by
  have hint := gauss_integrable
  have hsym : (∫ t in Set.Iic (-x), Real.exp (-(1 / 2) * t ^ 2))
      = ∫ t in Set.Ioi x, Real.exp (-(1 / 2) * t ^ 2) := by
    have h := integral_comp_neg_Iic (-x) (fun t : ℝ => Real.exp (-(1 / 2) * t ^ 2))
    simp only [neg_sq, neg_neg] at h
    exact h
  have htot : (∫ t in Set.Iic x, Real.exp (-(1 / 2) * t ^ 2))
      + (∫ t in Set.Ioi x, Real.exp (-(1 / 2) * t ^ 2))
      = ∫ t : ℝ, Real.exp (-(1 / 2) * t ^ 2) :=
    intervalIntegral.integral_Iic_add_Ioi hint.integrableOn hint.integrableOn
  have hgauss : (∫ t : ℝ, Real.exp (-(1 / 2) * t ^ 2)) = Real.sqrt (2 * Real.pi) := by
    have h := integral_gaussian (1 / 2)
    rw [h]
    congr 1
    rw [div_div_eq_mul_div, div_one]
    ring
  have hpos : Real.sqrt (2 * Real.pi) ≠ 0 := by
    have h2pi : (0 : ℝ) < 2 * Real.pi := by positivity
    exact ne_of_gt (Real.sqrt_pos.mpr h2pi)
  unfold normCDF
  rw [hsym, div_add_div_same, htot, hgauss, div_self hpos]

theorem bs_invalid (S K T r sigma : ℝ) (t : String) (hc : t ≠ "call") (hp : t ≠ "put") :
    black_scholes_price S K T r sigma t = Except.error PyErr.valueError := by
  simp only [black_scholes_price, if_neg hc, if_neg hp]

theorem bs_price_ok_of_valid (S K T r sigma : ℝ) (t : String)
    (ht : t = "call" ∨ t = "put") :
    black_scholes_price S K T r sigma t = Except.ok (bs_value S K T r sigma t) := by
  rcases ht with h | h <;> subst h <;>
    simp [black_scholes_price, bs_value]

theorem bs_parity_exact (S K T r sigma : ℝ) :
    ∃ c p : ℝ, black_scholes_price S K T r sigma "call" = Except.ok c ∧
      black_scholes_price S K T r sigma "put" = Except.ok p ∧
      c - p = S - K * Real.exp (-r * T) := by
  simp only [black_scholes_price, if_true,
    if_neg (show ¬("put" = "call") from by decide)]
  refine ⟨_, _, rfl, rfl, ?_⟩
  have h1 := normCDF_add_neg ((Real.log (S / K) + (r + 0.5 * sigma ^ 2) * T) / (sigma * Real.sqrt T))
  have h2 := normCDF_add_neg ((Real.log (S / K) + (r + 0.5 * sigma ^ 2) * T) / (sigma * Real.sqrt T) - sigma * Real.sqrt T)
  linear_combination S * h1 - K * Real.exp (-r * T) * h2

theorem bt_non_call (S K T r sigma : ℝ) (steps : ℕ) (t : String) (h : t ≠ "call") :
    binomial_tree_price S K T r sigma steps t = binomial_tree_price S K T r sigma steps "put" := by
  simp only [binomial_tree_price, if_neg h, if_neg (show ¬("put" = "call") from by decide)]

theorem exp_point_two_bounds :
    1.2214025 ≤ Real.exp 0.2 ∧ Real.exp 0.2 ≤ 1.2214028 := by
  have hx : |(1 / 5 : ℝ)| ≤ 1 := by rw [abs_of_nonneg] <;> norm_num
  have hn : 0 < 6 := by norm_num
  have h := Real.exp_bound hx hn
  have hsum : (∑ m ∈ Finset.range 6, (1 / 5 : ℝ) ^ m / m.factorial) = 458026 / 375000 := by
    norm_num [Finset.sum_range_succ, Nat.factorial]
  rw [hsum, abs_le, abs_of_nonneg (show (0 : ℝ) ≤ 1 / 5 by norm_num)] at h
  norm_num [Nat.factorial] at h
  have h02 : (0.2 : ℝ) = 1 / 5 := by norm_num
  rw [h02]
  constructor <;> nlinarith [h.1, h.2]

theorem bt_one_step_closed :
    binomial_tree_price 100 100 1 0 0.2 1 "call"
      = 100 * (Real.exp 0.2 - 1) / (Real.exp 0.2 + 1) := by
  have hu1 : 1 < Real.exp 0.2 := by
    rw [show (1 : ℝ) = Real.exp 0 from (Real.exp_zero).symm]
    exact Real.exp_lt_exp.mpr (by norm_num)
  have hu0 : 0 < Real.exp 0.2 := Real.exp_pos _
  simp only [binomial_tree_price, Nat.cast_one, div_one, Real.sqrt_one, mul_one, pow_one,
    zero_mul, Real.exp_zero, neg_zero, iterMulList, List.map, Function.iterate_one, bstep,
    List.headD, if_true]
  set u := Real.exp 0.2 with hu
  have hd0 : (0 : ℝ) < 1 / u := by positivity
  have hd1 : 1 / u < 1 := by
    rw [div_lt_one hu0]; exact hu1
  have hv0 : max 0 (100 * (1 / u) - 100) = 0 := by
    apply max_eq_left; nlinarith
  have hmid : 100 * (1 / u) * u / (1 / u) = 100 * u := by
    field_simp
  have hv1 : max 0 (100 * (1 / u) * u / (1 / u) - 100) = 100 * u - 100 := by
    rw [hmid]; apply max_eq_right; nlinarith
  rw [hv0, hv1]
  have hne : u - 1 / u ≠ 0 := by
    have hlt : 0 < u - 1 / u := by nlinarith
    exact ne_of_gt hlt
  have hne3 : (-1 : ℝ) + u ^ 2 ≠ 0 := by nlinarith
  field_simp
  linear_combination (100 * (u - 1)) * (inv_mul_cancel₀ hne3)

theorem bt_bounds :
    9.9663 < binomial_tree_price 100 100 1 0 0.2 1 "call" ∧
      binomial_tree_price 100 100 1 0 0.2 1 "call" < 9.9672 := by
  rw [bt_one_step_closed]
  have hb := exp_point_two_bounds
  set u := Real.exp 0.2 with hu
  have h1 : (0 : ℝ) < u + 1 := by nlinarith [hb.1]
  constructor
  · rw [lt_div_iff₀ h1]
    nlinarith [hb.1]
  · rw [div_lt_iff₀ h1]
    nlinarith [hb.2]

theorem bstep_length (disc q : ℝ) : ∀ l : List ℝ, (bstep disc q l).length = l.length
  | [] => rfl
  | [_] => rfl
  | _ :: y :: rest => by
      simp only [bstep, List.length_cons, bstep_length disc q (y :: rest)]

theorem bstep_iterate_length (disc q : ℝ) (k : ℕ) (l : List ℝ) :
    ((bstep disc q)^[k] l).length = l.length := by
  induction k generalizing l with
  | zero => rfl
  | succ n ih => rw [Function.iterate_succ_apply, ih, bstep_length]

theorem specStep_take (disc q : ℝ) : ∀ (l : List ℝ) (j : ℕ), j ≤ l.length →
    specStep disc q (l.take j) = (bstep disc q l).take (j - 1)
  | [], j, _ => by simp [specStep, bstep]
  | [x], 0, _ => by simp [specStep, bstep]
  | [x], 1, _ => by simp [specStep, bstep]
  | [x], j + 2, h => by simp at h
  | x :: y :: rest, 0, _ => by simp [specStep, bstep]
  | x :: y :: rest, 1, _ => by simp [specStep, bstep]
  | x :: y :: rest, k + 2, h => by
      have h' : k + 1 ≤ (y :: rest).length := by
        simpa using Nat.le_of_succ_le_succ h
      have ih := specStep_take disc q (y :: rest) (k + 1) h'
      rw [List.take_succ_cons] at ih
      simp only [Nat.add_sub_cancel] at ih
      have hsub : k + 2 - 1 = k + 1 := rfl
      rw [hsub]
      simp only [List.take_succ_cons, specStep, bstep, Nat.add_sub_cancel]
      rw [ih]

theorem specStep_iterate (disc q : ℝ) (k : ℕ) (l : List ℝ) (h : k + 1 ≤ l.length) :
    (specStep disc q)^[k] l = ((bstep disc q)^[k] l).take (l.length - k) := by
  induction k with
  | zero => simp
  | succ n ih =>
      rw [Function.iterate_succ_apply', Function.iterate_succ_apply', ih (by omega)]
      rw [specStep_take disc q _ (l.length - n) (by rw [bstep_iterate_length]; omega)]
      congr 1

theorem take_one_headD (l : List ℝ) (a : ℝ) : (l.take 1).headD a = l.headD a := by
  cases l <;> simp

theorem iterMulList_eq_map (u d : ℝ) : ∀ (n : ℕ) (x : ℝ),
    iterMulList u d x n = (List.range (n + 1)).map fun i => x * (u / d) ^ i
  | 0, x => by simp [iterMulList, List.range_succ]
  | n + 1, x => by
      rw [iterMulList, iterMulList_eq_map u d n (x * u / d)]
      conv_rhs => rw [List.range_succ_eq_map, List.map_cons, List.map_map]
      simp only [pow_zero, mul_one]
      congr 1
      apply List.map_congr_left
      intro i _
      simp only [Function.comp_apply]
      rw [pow_succ]
      ring

theorem iterMulList_length (u d : ℝ) (x : ℝ) (n : ℕ) :
    (iterMulList u d x n).length = n + 1 := by
  rw [iterMulList_eq_map]
  simp

theorem source_spec_head (disc q : ℝ) (N : ℕ) (l : List ℝ) (h : l.length = N + 1) :
    ((bstep disc q)^[N] l).headD 0 = ((specStep disc q)^[N] l).headD 0 := by
  rw [specStep_iterate disc q N l (by omega)]
  have h1 : l.length - N = 1 := by omega
  rw [h1, take_one_headD]

theorem bt_eq_spec (S K T r sigma : ℝ) (N : ℕ) (t : String) :
    binomial_tree_price S K T r sigma N t = binomialSpec S K T r sigma N t := by
  simp only [binomial_tree_price, binomialSpec]
  rw [iterMulList_eq_map, List.map_map]
  rw [source_spec_head]
  · rfl
  · simp

theorem applyModel_ok_of_valid (m : Model) (S K T r sigma : ℝ) (steps : ℕ) (t : String)
    (ht : t = "call" ∨ t = "put") :
    applyModel m S K T r sigma steps t = Except.ok (pricerValue m S K T r sigma steps t) := by
  cases m with
  | blackScholes =>
      simp only [applyModel, modelName, pricerValue]
      rw [if_neg (by decide)]
      exact bs_price_ok_of_valid S K T r sigma t ht
  | binomialTree =>
      simp [applyModel, modelName, pricerValue]

theorem mapExcept_ok {α β : Type} (f : α → Except PyErr β) (g : α → β)
    (h : ∀ a, f a = Except.ok (g a)) : ∀ l : List α, mapExcept f l = Except.ok (l.map g)
  | [] => rfl
  | x :: xs => by
      simp only [mapExcept, h x, mapExcept_ok f g h xs, List.map]
      rfl

theorem heatmap_prices_ok (S_range vol_range : List ℝ) (K T r : ℝ) (m : Model)
    (steps : ℕ) (t : String) (ht : t = "call" ∨ t = "put") :
    heatmap_prices S_range vol_range K T r m steps t =
      Except.ok (vol_range.map fun sigma =>
        S_range.map fun Sp => pricerValue m Sp K T r sigma steps t) := by
  unfold heatmap_prices
  apply mapExcept_ok
  intro sigma
  apply mapExcept_ok
  intro Sp
  exact applyModel_ok_of_valid m Sp K T r sigma steps t ht

theorem getD_map_of_lt {α β : Type} (f : α → β) (l : List α) (i : ℕ)
    (h : i < l.length) (d : β) (d' : α) :
    (l.map f).getD i d = f (l.getD i d') := by
  rw [List.getD_eq_getElem?_getD, List.getD_eq_getElem?_getD, List.getElem?_map]
  rw [List.getElem?_eq_getElem h]
  simp

theorem generate_never_ok (S_range vol_range : List ℝ) (K T r : ℝ) (m : Model)
    (mp : List (String × ℕ)) (steps : ℕ) (t : String) (fig : Fig) :
    generate_heatmap S_range vol_range K T r m mp steps t ≠ Except.ok fig := by
  unfold generate_heatmap
  cases hp : heatmap_prices S_range vol_range K T r m steps t <;> simp

theorem generate_bs_straddle :
    generate_heatmap [100] [0.2] 100 1 0 Model.blackScholes [] 50 "straddle"
      = Except.error PyErr.valueError := by
  have h : black_scholes_price 100 100 1 0 0.2 "straddle" = Except.error PyErr.valueError :=
    bs_invalid _ _ _ _ _ _ (by decide) (by decide)
  simp only [generate_heatmap, heatmap_prices, mapExcept, applyModel, modelName, h,
    if_neg (show ¬("black_scholes_price" = "binomial_tree_price") from by decide)]
  rfl

theorem generate_bt_straddle :
    generate_heatmap [100] [0.2] 100 1 0 Model.binomialTree [] 50 "straddle"
      = Except.error (PyErr.nameError "sns") := by
  simp only [generate_heatmap, heatmap_prices, mapExcept, applyModel, modelName, if_pos rfl]
  rfl

/-! ## Claim theorems -/

/-- C1: For every spotValues sequence of length m, every volValues sequence
of length n, fixed K, T, r, option type in call or put, and a fixed chosen
pricer, the matrix-filling part of generate_heatmap produces a price matrix
with exactly n rows and m columns, and cell [i][j] equals the chosen pricer
applied with spot spotValues[j] and volatility volValues[i], holding K, T,
r and the option type fixed. Determinism is immediate: heatmap_prices is a
pure function of its arguments. -/
theorem grid_dimensions_and_cells (S_range vol_range : List ℝ) (K T r : ℝ)
    (m : Model) (steps : ℕ) (t : String) (ht : t = "call" ∨ t = "put") :
    heatmap_prices S_range vol_range K T r m steps t =
      Except.ok (vol_range.map fun sigma =>
        S_range.map fun Sp => pricerValue m Sp K T r sigma steps t) ∧
    ∀ g : List (List ℝ),
      heatmap_prices S_range vol_range K T r m steps t = Except.ok g →
        g.length = vol_range.length ∧
        (∀ i : ℕ, i < vol_range.length → (g.getD i []).length = S_range.length) ∧
        (∀ i j : ℕ, i < vol_range.length → j < S_range.length →
          (g.getD i []).getD j 0 =
            pricerValue m (S_range.getD j 0) K T r (vol_range.getD i 0) steps t) := by
  have hmain := heatmap_prices_ok S_range vol_range K T r m steps t ht
  refine ⟨hmain, fun g hg => ?_⟩
  rw [hmain] at hg
  injection hg with hg
  subst hg
  refine ⟨by simp, fun i hi => ?_, fun i j hi hj => ?_⟩
  · rw [getD_map_of_lt _ vol_range i hi [] 0]
    simp
  · rw [getD_map_of_lt _ vol_range i hi [] 0]
    rw [getD_map_of_lt _ S_range j hj 0 0]

/-- Witness for C1 at a concrete grid: two spots, one volatility, the
analytic pricer, option type call. -/
theorem grid_dimensions_and_cells_witness :
    heatmap_prices [100, 110] [0.2] 100 1 0 Model.blackScholes 50 "call" =
      Except.ok (([0.2] : List ℝ).map fun sigma =>
        ([100, 110] : List ℝ).map fun Sp => pricerValue Model.blackScholes Sp 100 1 0 sigma 50 "call") :=
  (grid_dimensions_and_cells [100, 110] [0.2] 100 1 0 Model.blackScholes 50 "call" (Or.inl rfl)).1

/-- C2: For every S > 0, K > 0, T > 0, r >= 0, sigma > 0, the analytic
pricer returns exactly the Black-Scholes value: with
d1 = (ln(S/K) + (r + sigma^2/2) T) / (sigma sqrt T) and
d2 = d1 - sigma sqrt T, it returns S Phi(d1) - K exp(-rT) Phi(d2) for a
call and K exp(-rT) Phi(-d2) - S Phi(-d1) for a put, where Phi (normCDF)
is the standard normal cumulative distribution function. -/
theorem black_scholes_closed_form (S K T r sigma : ℝ)
    (hS : 0 < S) (hK : 0 < K) (hT : 0 < T) (hr : 0 ≤ r) (hsig : 0 < sigma) :
    black_scholes_price S K T r sigma "call" =
      Except.ok (S * normCDF ((Real.log (S / K) + (r + sigma ^ 2 / 2) * T) / (sigma * Real.sqrt T))
        - K * Real.exp (-r * T) *
          normCDF ((Real.log (S / K) + (r + sigma ^ 2 / 2) * T) / (sigma * Real.sqrt T)
            - sigma * Real.sqrt T)) ∧
    black_scholes_price S K T r sigma "put" =
      Except.ok (K * Real.exp (-r * T) *
          normCDF (-((Real.log (S / K) + (r + sigma ^ 2 / 2) * T) / (sigma * Real.sqrt T)
            - sigma * Real.sqrt T))
        - S * normCDF (-((Real.log (S / K) + (r + sigma ^ 2 / 2) * T) / (sigma * Real.sqrt T)))) := by
  have h05 : ∀ x : ℝ, (0.5 : ℝ) * x ^ 2 = x ^ 2 / 2 := fun x => by ring
  constructor <;> simp [black_scholes_price, h05]

/-- Witness for C2 at S = 100, K = 100, T = 1, r = 0, sigma = 1. -/
theorem black_scholes_closed_form_witness :
    black_scholes_price 100 100 1 0 1 "call" =
      Except.ok (100 * normCDF ((Real.log (100 / 100) + (0 + 1 ^ 2 / 2) * 1) / (1 * Real.sqrt 1))
        - 100 * Real.exp (-0 * 1) *
          normCDF ((Real.log (100 / 100) + (0 + 1 ^ 2 / 2) * 1) / (1 * Real.sqrt 1)
            - 1 * Real.sqrt 1)) :=
  (black_scholes_closed_form 100 100 1 0 1 (by norm_num) (by norm_num) (by norm_num)
    (le_refl 0) (by norm_num)).1

/-- C3: For every S, K > 0, T > 0, r >= 0, sigma > 0, integer N >= 1 and
option type, the lattice pricer returns exactly the value of the two-phase
binomial algorithm of the specification: closed-form terminal prices
S d^N (u/d)^i with call or put payoffs, then N backward-induction steps
each collapsing a layer of size m to size m - 1, returning the single
remaining value (binomialSpec). -/
theorem binomial_matches_two_phase_spec (S K T r sigma : ℝ) (N : ℕ) (t : String)
    (hS : 0 < S) (hK : 0 < K) (hT : 0 < T) (hr : 0 ≤ r) (hsig : 0 < sigma)
    (hN : 1 ≤ N) (ht : t = "call" ∨ t = "put") :
    binomial_tree_price S K T r sigma N t = binomialSpec S K T r sigma N t :=
  bt_eq_spec S K T r sigma N t

/-- Witness for C3 at S = 100, K = 100, T = 1, r = 1/20, sigma = 0.2,
N = 2, option type call. -/
theorem binomial_matches_two_phase_spec_witness :
    binomial_tree_price 100 100 1 (1 / 20) 0.2 2 "call"
      = binomialSpec 100 100 1 (1 / 20) 0.2 2 "call" :=
  binomial_matches_two_phase_spec 100 100 1 (1 / 20) 0.2 2 "call" (by norm_num) (by norm_num)
    (by norm_num) (by norm_num) (by norm_num) (by norm_num) (Or.inl rfl)

/-- C4 (code bug): the claim says the lattice pricer raises
InvalidOptionType for types outside call and put and that this error
propagates from the first grid cell. The code does neither: at the
failing input option type "straddle" the lattice pricer silently returns
the put value, and the grid evaluation with the lattice pricer completes
every cell and then fails with the unrelated NameError on sns instead of
InvalidOptionType. -/
theorem binomial_invalid_type_not_rejected :
    binomial_tree_price 100 100 1 0 0.2 1 "straddle"
        = binomial_tree_price 100 100 1 0 0.2 1 "put" ∧
    generate_heatmap [100] [0.2] 100 1 0 Model.binomialTree [] 50 "straddle"
        = Except.error (PyErr.nameError "sns") :=
  ⟨bt_non_call 100 100 1 0 0.2 1 "straddle" (by decide), generate_bt_straddle⟩

/-- C5 counterexample: the claim says every call to generate_heatmap, for
every input, raises NameError on sns after the matrix is filled. At the
concrete input with the analytic pricer and option type "straddle" the
first cell raises ValueError instead, so the NameError line is never
reached. -/
theorem heatmap_nameerror_counterexample :
    generate_heatmap [100] [0.2] 100 1 0 Model.blackScholes [] 50 "straddle"
        ≠ Except.error (PyErr.nameError "sns") ∧
    generate_heatmap [100] [0.2] 100 1 0 Model.blackScholes [] 50 "straddle"
        = Except.error PyErr.valueError := by
  have h := generate_bs_straddle
  constructor
  · rw [h]; simp
  · exact h

/-- C5 (amended): generate_heatmap never returns a result to its caller,
for any input; and on every input whose per-cell pricer calls succeed (in
particular whenever the option type is call or put) it raises the
unhandled NameError on the undefined name sns after the price matrix has
been filled. -/
theorem heatmap_never_returns (S_range vol_range : List ℝ) (K T r : ℝ) (m : Model)
    (mp : List (String × ℕ)) (steps : ℕ) (t : String) :
    (∀ fig : Fig, generate_heatmap S_range vol_range K T r m mp steps t ≠ Except.ok fig) ∧
    (t = "call" ∨ t = "put" →
      generate_heatmap S_range vol_range K T r m mp steps t
        = Except.error (PyErr.nameError "sns")) := by
  constructor
  · exact fun fig => generate_never_ok S_range vol_range K T r m mp steps t fig
  · intro ht
    unfold generate_heatmap
    rw [heatmap_prices_ok S_range vol_range K T r m steps t ht]

/-- Witness for amended C5 at a concrete input with option type call. -/
theorem heatmap_never_returns_witness :
    generate_heatmap [100] [0.2] 100 1 0 Model.blackScholes [] 50 "call"
      = Except.error (PyErr.nameError "sns") :=
  (heatmap_never_returns [100] [0.2] 100 1 0 Model.blackScholes [] 50 "call").2 (Or.inl rfl)

/-- C6: For every option type outside call and put and all numeric
parameters, the analytic pricer fails with the ValueError that models
InvalidOptionType; for call and put it never raises (it returns a value,
and over the reals no other exception is possible: numpy log and division
yield NaN or infinity rather than raising). -/
theorem black_scholes_type_validation (S K T r sigma : ℝ) (t : String) :
    (t ≠ "call" → t ≠ "put" →
      black_scholes_price S K T r sigma t = Except.error PyErr.valueError) ∧
    (∃ c : ℝ, black_scholes_price S K T r sigma "call" = Except.ok c) ∧
    (∃ p : ℝ, black_scholes_price S K T r sigma "put" = Except.ok p) := by
  refine ⟨fun hc hp => bs_invalid S K T r sigma t hc hp, ?_, ?_⟩
  · exact ⟨_, bs_price_ok_of_valid S K T r sigma "call" (Or.inl rfl)⟩
  · exact ⟨_, bs_price_ok_of_valid S K T r sigma "put" (Or.inr rfl)⟩

/-- Witness for C6 at the concrete option type "straddle". -/
theorem black_scholes_type_validation_witness :
    black_scholes_price 100 100 1 (1 / 20) 0.2 "straddle" = Except.error PyErr.valueError ∧
    (∃ c : ℝ, black_scholes_price 100 100 1 (1 / 20) 0.2 "call" = Except.ok c) :=
  ⟨(black_scholes_type_validation 100 100 1 (1 / 20) 0.2 "straddle").1 (by decide) (by decide),
    (black_scholes_type_validation 100 100 1 (1 / 20) 0.2 "straddle").2.1⟩

/-- C7: For every S > 0, K > 0, T > 0, r >= 0, sigma > 0, the analytic
call price minus the analytic put price equals S - K exp(-rT) exactly
(hence in particular within a relative tolerance of 1e-9). -/
theorem put_call_parity (S K T r sigma : ℝ)
    (hS : 0 < S) (hK : 0 < K) (hT : 0 < T) (hr : 0 ≤ r) (hsig : 0 < sigma) :
    ∃ c p : ℝ, black_scholes_price S K T r sigma "call" = Except.ok c ∧
      black_scholes_price S K T r sigma "put" = Except.ok p ∧
      c - p = S - K * Real.exp (-r * T) ∧
      |c - p - (S - K * Real.exp (-r * T))| ≤ 1e-9 * |S - K * Real.exp (-r * T)| := by
  obtain ⟨c, p, hc, hp, he⟩ := bs_parity_exact S K T r sigma
  refine ⟨c, p, hc, hp, he, ?_⟩
  rw [he, sub_self, abs_zero]
  positivity

/-- Witness for C7 at S = 100, K = 100, T = 1, r = 0, sigma = 0.2. -/
theorem put_call_parity_witness :
    ∃ c p : ℝ, black_scholes_price 100 100 1 0 0.2 "call" = Except.ok c ∧
      black_scholes_price 100 100 1 0 0.2 "put" = Except.ok p ∧
      c - p = 100 - 100 * Real.exp (-0 * 1) ∧
      |c - p - (100 - 100 * Real.exp (-0 * 1))| ≤ 1e-9 * |100 - 100 * Real.exp (-0 * 1)| :=
  put_call_parity 100 100 1 0 0.2 (by norm_num) (by norm_num) (by norm_num)
    (le_refl 0) (by norm_num)

/-- C8: The output of generate_heatmap does not depend on the model_params
argument (the body never reads it), and with the lattice model the price
matrix cells are always computed from the separate steps argument: a step
count supplied inside model_params has no effect on the grid. At the
application call sites the steps argument is omitted, so default_steps
(50) is the value in effect there. -/
theorem grid_independent_of_model_params (S_range vol_range : List ℝ) (K T r : ℝ)
    (m : Model) (mp1 mp2 : List (String × ℕ)) (steps : ℕ) (t : String) :
    generate_heatmap S_range vol_range K T r m mp1 steps t
        = generate_heatmap S_range vol_range K T r m mp2 steps t ∧
    heatmap_prices S_range vol_range K T r Model.binomialTree steps t
        = Except.ok (vol_range.map fun sigma =>
            S_range.map fun Sp => binomial_tree_price Sp K T r sigma steps t) := by
  constructor
  · rfl
  · unfold heatmap_prices
    apply mapExcept_ok
    intro sigma
    apply mapExcept_ok
    intro Sp
    simp [applyModel, modelName]

/-- C9 counterexample: the claimed one-step value 9.9590 is wrong. The
exact value of the lattice pricer at S = 100, K = 100, T = 1, r = 0,
sigma = 0.2, N = 1 differs from 9.9590 by more than 0.005, so it does not
round to 9.9590 at the precision the claim states. -/
theorem one_step_binomial_not_9959 :
    0.005 < |binomial_tree_price 100 100 1 0 0.2 1 "call" - 9.9590| := by
  have hb := bt_bounds
  have h : (0.005 : ℝ) < binomial_tree_price 100 100 1 0 0.2 1 "call" - 9.9590 := by
    linarith [hb.1]
  calc (0.005 : ℝ) < binomial_tree_price 100 100 1 0 0.2 1 "call" - 9.9590 := h
    _ ≤ |binomial_tree_price 100 100 1 0 0.2 1 "call" - 9.9590| := le_abs_self _

/-- C9 (amended): with S = 100, K = 100, T = 1, r = 0, sigma = 0.2 and
N = 1 step, the lattice pricer call price equals the hand-computed
one-step binomial value approximately 9.9668 (within 0.001); exactly it is
100 (u - 1) / (u + 1) with u = exp 0.2, about 9.96682. -/
theorem one_step_binomial_value :
    |binomial_tree_price 100 100 1 0 0.2 1 "call" - 9.9668| < 0.001 := by
  have hb := bt_bounds
  rw [abs_lt]
  constructor <;> linarith [hb.1, hb.2]

/-- C10: For every option type other than "call" (including values outside
call and put such as "straddle"), the lattice pricer returns the same
value it returns for "put": line 31 selects the put payoff for any
non-call type, and since the function returns a plain real no error can be
raised. The steps >= 1 hypothesis keeps to the documented lattice domain
(with steps = 0 the real-valued embedding is still total, while Python
would raise ZeroDivisionError computing dt). -/
theorem binomial_non_call_is_put (S K T r sigma : ℝ) (steps : ℕ) (t : String)
    (ht : t ≠ "call") (hsteps : 1 ≤ steps) :
    binomial_tree_price S K T r sigma steps t
      = binomial_tree_price S K T r sigma steps "put" :=
  bt_non_call S K T r sigma steps t ht

/-- Witness for C10 at the concrete option type "straddle" with one
step. -/
theorem binomial_non_call_is_put_witness :
    binomial_tree_price 100 100 1 0 0.2 1 "straddle"
      = binomial_tree_price 100 100 1 0 0.2 1 "put" :=
  binomial_non_call_is_put 100 100 1 0 0.2 1 "straddle" (by decide) (by norm_num)

end BSWeb
